import Mathlib

/-!
Shallow embedding of `ppdiffusers/models/normalization.py` (conditional
normalization layers: AdaLayerNorm, AdaLayerNormZero, AdaLayerNormSingle,
AdaGroupNorm, AdaLayerNormContinuous, RMSNorm).

Tensors are modelled as rectangular nested lists of rationals:
`Vec` is rank 1, `Mat` is rank 2 (`[batch, dim]`), `T3` is rank 3
(`[batch, seq, dim]`).  Scalar functions supplied by the host engine that
have no rational closed form (`sqrt` inside the normalizers, the SiLU
activation, the dtype cast) are threaded through as explicit function
arguments named `sq`, `si`, `ca`.  Fallible tensor operations (shape
mismatches, out-of-range lookups, missing attributes — all of which raise
in Python) return `Option`, with `none` standing for a raised exception.
-/

abbrev Vec : Type := List ℚ

abbrev Mat : Type := List (List ℚ)

abbrev T3 : Type := List (List (List ℚ))

/-- Sequence a list of optional values: `none` if any element is `none`
(the Python exception propagates). -/
def seqO {α : Type} : List (Option α) → Option (List α)
  | [] => some []
  | o :: rest => o.bind (fun a => (seqO rest).map (fun l => a :: l))

/-- One axis of numpy/paddle broadcasting: the two lists pair index-wise
when their lengths agree, a length-1 operand is repeated against the
other, and any other combination of lengths is a broadcast error. -/
def bcZip {α β γ : Type} (g : α → β → Option γ) (a : List α) (b : List β) :
    Option (List γ) :=
  if a.length = b.length then seqO (List.zipWith g a b)
  else if a.length = 1 then
    match a with
    | [x] => seqO (b.map (fun y => g x y))
    | _ => none
  else if b.length = 1 then
    match b with
    | [y] => seqO (a.map (fun x => g x y))
    | _ => none
  else none

/-- Broadcasting elementwise combination of two rank-1 tensors. -/
def bc1 (f : ℚ → ℚ → ℚ) (a b : Vec) : Option Vec :=
  bcZip (fun x y => some (f x y)) a b

/-- Broadcasting elementwise combination of two rank-2 tensors. -/
def bc2 (f : ℚ → ℚ → ℚ) (a b : Mat) : Option Mat :=
  bcZip (bc1 f) a b

/-- Broadcasting elementwise combination of two rank-3 tensors.  A rank-2
operand is first lifted to rank 3 by the caller (numpy pads leading axes
with 1), e.g. by wrapping it in a singleton list. -/
def bc3 (f : ℚ → ℚ → ℚ) (a b : T3) : Option T3 :=
  bcZip (bc2 f) a b

/-- `scale[:, None]`: insert a length-1 axis in the middle, `[b, d]` to
`[b, 1, d]`. -/
def unsq1 (m : Mat) : T3 :=
  m.map (fun r => [r])

/-- Dot product (used by the linear projection). -/
def dot (a b : Vec) : ℚ :=
  (List.zipWith (fun x y => x * y) a b).sum

/-- `paddle.nn.Linear` applied to one row: `y = x Wᵀ + b`.  The weight is
stored here as a list of output-neuron rows (the transpose of paddle's
`[in, out]` layout); the claims do not depend on the storage layout. -/
def linearV (W : Mat) (b : Vec) (x : Vec) : Vec :=
  List.zipWith (fun wrow bj => dot wrow x + bj) W b

/-- Linear layer mapped over the batch axis of a rank-2 tensor. -/
def linearM (W : Mat) (b : Vec) (m : Mat) : Mat :=
  m.map (linearV W b)

/-- Linear layer with optional bias (`bias_attr=False` drops the bias
parameter entirely, so the projection is `y = x Wᵀ`). -/
def linearVO (W : Mat) (ob : Option Vec) (x : Vec) : Vec :=
  match ob with
  | some b => linearV W b x
  | none => W.map (fun wrow => dot wrow x)

/-- Optional-bias linear layer over the batch axis. -/
def linearMO (W : Mat) (ob : Option Vec) (m : Mat) : Mat :=
  m.map (linearVO W ob)

/-- Elementwise application of a scalar function to a rank-2 tensor
(used for `nn.Silu` and for `.cast(x.dtype)`). -/
def mapM2 (f : ℚ → ℚ) (m : Mat) : Mat :=
  m.map (fun r => r.map f)

/-- Mean of a vector (the reduction inside the normalizers). -/
def mean (v : Vec) : ℚ :=
  v.sum / (v.length : ℚ)

/-- `nn.LayerNorm` statistics on one feature vector, no learned affine:
`(x - mean) / sqrt(var + eps)` with biased variance, `sq` standing for
the host engine's square root. -/
def lnVec (sq : ℚ → ℚ) (eps : ℚ) (v : Vec) : Vec :=
  let mu := mean v
  let var := mean (v.map (fun a => (a - mu) * (a - mu)))
  v.map (fun a => (a - mu) / sq (var + eps))

/-- Layer normalization over the last axis of a `[batch, seq, dim]`
tensor, no learned affine. -/
def lnT3 (sq : ℚ → ℚ) (eps : ℚ) (x : T3) : T3 :=
  x.map (fun m => m.map (lnVec sq eps))

/-- `1 + t` elementwise on a rank-2 tensor. -/
def onePlus (m : Mat) : Mat :=
  mapM2 (fun a => 1 + a) m

/-- Affine modulation written from the spec's words: per batch element
`i`, sequence position `j` and channel `k`, the output is
`X[i][j][k] * (1 + scale[i][k]) + shift[i][k]`, the per-batch scale and
shift rows being broadcast over the sequence axis. -/
def modRows (X : T3) (scale shift : Mat) : T3 :=
  (X.zip (scale.zip shift)).map (fun p =>
    p.1.map (fun row =>
      List.zipWith (fun a c0 => a + c0)
        (List.zipWith (fun a c0 => a * (1 + c0)) row p.2.1)
        p.2.2))

/-- `paddle.chunk` of one row into `k` equal consecutive slices; paddle
requires the axis length to be divisible by `k` and raises otherwise. -/
def chunkVec (k : ℕ) (r : Vec) : Option (List Vec) :=
  if k = 0 then none
  else if r.length % k = 0 then
    some ((List.range k).map (fun j =>
      ((r.drop (j * (r.length / k))).take (r.length / k))))
  else none

/-- `paddle.chunk(m, k, axis=1)`: chunk every row, then regroup the `j`-th
slices into the `j`-th sub-tensor. -/
def chunkCols (k : ℕ) (m : Mat) : Option (List Mat) :=
  (seqO (m.map (chunkVec k))).map (fun rowsParts =>
    (List.range k).map (fun j => rowsParts.map (fun ps => ps.getD j [])))

/-- `paddle.chunk(m, k, axis=0)` (the default axis): split the rows into
`k` equal consecutive blocks; the row count must be divisible by `k`. -/
def chunkRows (k : ℕ) (m : Mat) : Option (List Mat) :=
  if k = 0 then none
  else if m.length % k = 0 then
    some ((List.range k).map (fun j =>
      ((m.drop (j * (m.length / k))).take (m.length / k))))
  else none

/-! ## RMSNorm -/

/-- State of `RMSNorm`: the constructor stores `epsilon` and `dim`
unvalidated and creates the scale parameter (initialized to ones) only
when `elementwise_affine` is true; otherwise `self.weight = None`.  The
class never defines a `bias` attribute. -/
structure RMSNorm where
  dim : ℕ
  epsilon : ℚ
  weight : Option Vec

/-- `RMSNorm.__init__(dim, epsilon, elementwise_affine)`.  No check of
any kind is performed on `epsilon`. -/
def RMSNorm.init (dim : ℕ) (epsilon : ℚ) (elementwiseAffine : Bool) :
    RMSNorm :=
  { dim := dim
    epsilon := epsilon
    weight := if elementwiseAffine then some (List.replicate dim (1 : ℚ))
              else none }

/-- Modelled from the spec: the fused RMS kernel
`paddle.incubate.nn.functional.fused_rms_norm(x, norm_weight, norm_bias=None,
epsilon, begin_norm_axis=2)` is host-engine code outside this repository;
per its contract (spec section 4.2) it is numerically equivalent to
square, mean-reduce over the axes from `begin_norm_axis` on (the last axis
of a rank-3 tensor), add epsilon, reciprocal square root, multiply,
optional scale multiply. -/
def fusedRmsNorm (sq : ℚ → ℚ) (x : T3) (w : Option Vec) (eps : ℚ) : T3 :=
  x.map (fun m => m.map (fun v =>
    let normed := v.map (fun a => a / sq (mean (v.map (fun b => b * b)) + eps))
    match w with
    | some wv => List.zipWith (fun a b => a * b) normed wv
    | none => normed))

/-- `RMSNorm.forward(hidden_states)`: the body consists of the single
expression statement `paddle.incubate.nn.functional.fused_rms_norm(...)`
with no `return`, so the computed tensor is discarded and the Python call
returns `None`. -/
def RMSNorm.forward (sq : ℚ → ℚ) (st : RMSNorm) (x : T3) : Option T3 :=
  let _discarded := fusedRmsNorm sq x st.weight st.epsilon
  none

/-- Written from the spec's words (section 4.2): compute
`x / sqrt(mean(x^2, axis=dim) + eps) * scale`, and when the scale is
absent, the unscaled normalized value. -/
def specRmsNorm (sq : ℚ → ℚ) (st : RMSNorm) (x : T3) : T3 :=
  x.map (fun m => m.map (fun v =>
    let denom := sq (mean (v.map (fun b => b * b)) + st.epsilon)
    match st.weight with
    | some wv => List.zipWith (fun a b => a * b) (v.map (fun a => a / denom)) wv
    | none => v.map (fun a => a / denom)))

/-! ## AdaLayerNorm -/

/-- State of `AdaLayerNorm`: an embedding table
(`nn.Embedding(num_embeddings, embedding_dim)`), the projection
`nn.Linear(embedding_dim, embedding_dim * 2)` and a `nn.LayerNorm` with
no learned affine and the default epsilon `1e-5`.  Parameter tensors are
owned by the host engine and appear here as data. -/
structure AdaLayerNorm where
  table : List (List ℚ)
  W : Mat
  b : Vec

/-- `nn.Embedding` lookup of a batch of integer timesteps; an index
outside the table raises in the host engine. -/
def embLookup (table : List (List ℚ)) (ts : List ℕ) : Option Mat :=
  seqO (ts.map (fun t => table.get? t))

/-- `AdaLayerNorm.forward(x, timestep)`:
`emb = self.linear(self.silu(self.emb(timestep)))`;
`scale, shift = paddle.chunk(emb, 2)` — note the default `axis=0`;
`x = self.norm(x) * (1 + scale) + shift` with numpy broadcasting (the
rank-2 scale/shift are lifted to rank 3 with a leading length-1 axis). -/
def AdaLayerNorm.forward (sq si : ℚ → ℚ) (st : AdaLayerNorm) (x : T3)
    (ts : List ℕ) : Option T3 :=
  (embLookup st.table ts).bind (fun e0 =>
  let e := linearM st.W st.b (mapM2 si e0)
  (chunkRows 2 e).bind (fun parts =>
  match parts with
  | [scale, shift] =>
    (bc3 (fun p q => p * q) (lnT3 sq ((1 : ℚ)/100000) x) [onePlus scale]).bind
      (fun y => bc3 (fun p q => p + q) y [shift])
  | _ => none))

/-! ## AdaLayerNormZero -/

/-- State of `AdaLayerNormZero`: optionally an internal
`CombinedTimestepLabelEmbeddings` embedder (present exactly when
`num_embeddings` was given at construction), the projection
`nn.Linear(embedding_dim, 6 * embedding_dim)` and a `nn.LayerNorm` with
epsilon `1e-6` and no learned affine.  The internal embedder is external
host/boundary code; it is modelled as an abstract function from the
`(timestep, class_labels)` conditioning to a `[batch, embedding_dim]`
tensor. -/
structure AdaLayerNormZero where
  emb : Option (List ℕ → List ℕ → Mat)
  W : Mat
  b : Vec

/-- The `emb` local of `AdaLayerNormZero.forward`: taken from the internal
embedder when one is configured, otherwise the `emb` argument is used as
passed (possibly `None`). -/
def effEmb (st : AdaLayerNormZero) (ts cls : List ℕ) (embArg : Option Mat) :
    Option Mat :=
  match st.emb with
  | some f => some (f ts cls)
  | none => embArg

/-- `AdaLayerNormZero.forward(x, timestep, class_labels, hidden_dtype, emb)`:
project the (possibly internally computed) embedding after SiLU, chunk the
`[batch, 6*dim]` result into six along `axis=1` in the order
`shift_msa, scale_msa, gate_msa, shift_mlp, scale_mlp, gate_mlp`,
modulate `norm(x)` with `scale_msa[:, None]` and `shift_msa[:, None]`,
and return the five-tuple.  When neither an internal embedder nor an
`emb` argument is present, `self.silu(None)` raises a `TypeError`
(modelled as `none`). -/
def AdaLayerNormZero.forward (sq si : ℚ → ℚ) (st : AdaLayerNormZero)
    (x : T3) (ts cls : List ℕ) (embArg : Option Mat) :
    Option (T3 × Mat × Mat × Mat × Mat) :=
  match effEmb st ts cls embArg with
  | none => none
  | some e =>
    let e6 := linearM st.W st.b (mapM2 si e)
    (chunkCols 6 e6).bind (fun parts =>
    match parts with
    | [shiftMsa, scaleMsa, gateMsa, shiftMlp, scaleMlp, gateMlp] =>
      (bc3 (fun p q => p * q) (lnT3 sq ((1 : ℚ)/1000000) x)
          (unsq1 (onePlus scaleMsa))).bind (fun y =>
      (bc3 (fun p q => p + q) y (unsq1 shiftMsa)).map (fun x1 =>
      (x1, gateMsa, shiftMlp, scaleMlp, gateMlp)))
    | _ => none)

/-- Written from the spec's words (section 4.4): the `j`-th of the six
equal chunks along axis 1 is the slice of columns `[j*dim, (j+1)*dim)`. -/
def specSlice (lo len : ℕ) (m : Mat) : Mat :=
  m.map (fun r => (r.drop lo).take len)

/-- Written from the spec's words (section 4.4): per batch element `i`,
per position `j`, per channel `k`, the modulated output is
`norm(x)[i][j][k] * (1 + scale_msa[i][k]) + shift_msa[i][k]`, the
scale/shift being broadcast over the sequence axis. -/
def specModulate (sq : ℚ → ℚ) (eps : ℚ) (x : T3) (scale shift : Mat) : T3 :=
  modRows (lnT3 sq eps x) scale shift

/-! ## AdaLayerNormSingle -/

/-- State of `AdaLayerNormSingle`: the boundary embedder
(`CombinedTimestepSizeEmbeddings`, external code modelled as an abstract
function from the batched timesteps to a `[batch, embedding_dim]`
tensor), the `size_emb_dim` it was configured with, and the projection
`nn.Linear(embedding_dim, 6 * embedding_dim)`. -/
structure AdaLayerNormSingle where
  sizeEmbDim : ℕ
  useAdditionalConditions : Bool
  embF : List ℕ → Mat
  W : Mat
  b : Vec

/-- `AdaLayerNormSingle.__init__(embedding_dim, use_additional_conditions)`:
construct the boundary embedder with
`size_emb_dim = embedding_dim // 3` (integer division) and the given
flag; the embedder itself is external, so a factory from that
configuration to the embedding function is taken as an argument.  The
host-initialized projection parameters are taken as data. -/
def AdaLayerNormSingle.init (embeddingDim : ℕ) (useAdd : Bool)
    (factory : ℕ → Bool → (List ℕ → Mat)) (W : Mat) (b : Vec) :
    AdaLayerNormSingle :=
  { sizeEmbDim := embeddingDim / 3
    useAdditionalConditions := useAdd
    embF := factory (embeddingDim / 3) useAdd
    W := W
    b := b }

/-- `AdaLayerNormSingle.forward(timestep, ...)`: embed the timestep, then
return `(self.linear(self.silu(embedded_timestep)), embedded_timestep)` —
no chunking and no normalization is applied here. -/
def AdaLayerNormSingle.forward (si : ℚ → ℚ) (st : AdaLayerNormSingle)
    (ts : List ℕ) : Mat × Mat :=
  let embeddedTimestep := st.embF ts
  (linearM st.W st.b (mapM2 si embeddedTimestep), embeddedTimestep)

/-! ## AdaGroupNorm -/

/-- State of `AdaGroupNorm`: stores `num_groups` and `eps` as given, an
optional activation (resolved by the external `get_activation` registry,
modelled as an optional scalar function), the projection
`nn.Linear(embedding_dim, out_dim * 2)`, and a `nn.GroupNorm` whose
learned affine is suppressed (`weight`/`bias` set to `None` right after
construction). -/
structure AdaGroupNorm where
  numGroups : ℕ
  eps : ℚ
  act : Option (ℚ → ℚ)
  W : Mat
  b : Vec
  gnWeight : Option Vec
  gnBias : Option Vec

/-- `AdaGroupNorm.__init__(embedding_dim, out_dim, num_groups, act_fn, eps)`:
stores `num_groups` and `eps` unvalidated — in particular no check on
`eps` is performed — resolves the optional activation, creates the
projection, and nulls the group norm's affine parameters. -/
def AdaGroupNorm.init (numGroups : ℕ) (eps : ℚ) (act : Option (ℚ → ℚ))
    (W : Mat) (b : Vec) : AdaGroupNorm :=
  { numGroups := numGroups
    eps := eps
    act := act
    W := W
    b := b
    gnWeight := none
    gnBias := none }

/-! ## AdaLayerNormContinuous -/

/-- The underlying normalizer chosen by `norm_type` at construction:
either a `nn.LayerNorm(embedding_dim, eps, weight_attr=elementwise_affine,
bias_attr=bias)` — which always carries `weight` and `bias` attributes,
each `None` when the corresponding flag is false — or an `RMSNorm`, which
carries a `weight` attribute but no `bias` attribute at all. -/
inductive NormChoice where
  | layerNorm (eps : ℚ) (weight : Option Vec) (bias : Option Vec)
  | rms (st : RMSNorm)

/-- Attribute read `self.norm.weight`: defined for both normalizer kinds
(`some` of the attribute's value, which may itself be `None`). -/
def normWeightAttr : NormChoice → Option (Option Vec)
  | NormChoice.layerNorm _ w _ => some w
  | NormChoice.rms st => some st.weight

/-- Attribute read `self.norm.bias`: a `LayerNorm` always has the
attribute; `RMSNorm` never defines one, so the read raises
`AttributeError` (modelled as `none`). -/
def normBiasAttr : NormChoice → Option (Option Vec)
  | NormChoice.layerNorm _ _ b => some b
  | NormChoice.rms _ => none

/-- Application of the configured normalizer `self.norm(x)`.  The layer
norm applies its optional learned affine after the statistics; the RMS
branch is `RMSNorm.forward`, whose missing `return` makes it yield
`None`. -/
def normApply (sq : ℚ → ℚ) : NormChoice → T3 → Option T3
  | NormChoice.layerNorm eps w b, x =>
    some (x.map (fun m => m.map (fun v =>
      let n0 := lnVec sq eps v
      let n1 := match w with
        | some wv => List.zipWith (fun p q => p * q) n0 wv
        | none => n0
      match b with
      | some bv => List.zipWith (fun p q => p + q) n1 bv
      | none => n1)))
  | NormChoice.rms st, x => RMSNorm.forward sq st x

/-- State of `AdaLayerNormContinuous`: the projection
`nn.Linear(conditioning_embedding_dim, embedding_dim * 2, bias_attr=bias)`
and the chosen normalizer. -/
structure AdaLayerNormContinuous where
  W : Mat
  lb : Option Vec
  norm : NormChoice

/-- `AdaLayerNormContinuous.__init__`: build the projection, then select
the normalizer by `norm_type` — `"layer_norm"`, `"rms_norm"`, and any
other string raises `ValueError` at construction (modelled as `none`). -/
def AdaLayerNormContinuous.init (embeddingDim : ℕ) (elementwiseAffine : Bool)
    (eps : ℚ) (bias : Bool) (normType : String) (W : Mat) (lb : Option Vec) :
    Option AdaLayerNormContinuous :=
  if normType = "layer_norm" then
    some { W := W
           lb := lb
           norm := NormChoice.layerNorm eps
             (if elementwiseAffine then some (List.replicate embeddingDim (1 : ℚ)) else none)
             (if bias then some (List.replicate embeddingDim (0 : ℚ)) else none) }
  else if normType = "rms_norm" then
    some { W := W
           lb := lb
           norm := NormChoice.rms (RMSNorm.init embeddingDim eps elementwiseAffine) }
  else none

/-- `AdaLayerNormContinuous.forward(x, conditioning_embedding)`:
`emb = self.linear(self.silu(conditioning_embedding).cast(x.dtype))`;
`scale, shift = paddle.chunk(emb, 2, axis=1)`; then, when the
`INFERENCE_OPTIMIZE_TRITON` environment switch is set (`flag`), call the
external fused kernel on `(x, scale, shift, self.norm.weight,
self.norm.bias)` — the attribute reads happening first — and otherwise
compute `self.norm(x) * (1 + scale)[:, None, :] + shift[:, None, :]`.
The fused kernel is external code, threaded through as the abstract
function `fop`; the dtype cast is the abstract scalar function `ca`. -/
def AdaLayerNormContinuous.forward (sq si ca : ℚ → ℚ)
    (fop : T3 → Mat → Mat → Option Vec → Option Vec → T3) (flag : Bool)
    (st : AdaLayerNormContinuous) (x : T3) (c : Mat) : Option T3 :=
  let e := linearMO st.W st.lb (mapM2 ca (mapM2 si c))
  (chunkCols 2 e).bind (fun parts =>
  match parts with
  | [scale, shift] =>
    if flag then
      match normWeightAttr st.norm, normBiasAttr st.norm with
      | some w, some b => some (fop x scale shift w b)
      | _, _ => none
    else
      (normApply sq st.norm x).bind (fun nx =>
      (bc3 (fun p q => p * q) nx (unsq1 (onePlus scale))).bind (fun y =>
      bc3 (fun p q => p + q) y (unsq1 shift)))
  | _ => none)

/-- The mathematical value of the configured normalizer, written from the
spec's words (sections 4.1 and 4.2): layer-norm statistics with the
optional learned affine, or the RMS normalization with its optional
scale. -/
def specNormApply (sq : ℚ → ℚ) : NormChoice → T3 → T3
  | NormChoice.layerNorm eps w b, x =>
    x.map (fun m => m.map (fun v =>
      let n0 := lnVec sq eps v
      let n1 := match w with
        | some wv => List.zipWith (fun p q => p * q) n0 wv
        | none => n0
      match b with
      | some bv => List.zipWith (fun p q => p + q) n1 bv
      | none => n1))
  | NormChoice.rms st, x => specRmsNorm sq st x

/-- Written from the spec's words (sections 4.7 and 6): SiLU on the
conditioning embedding, cast to the activation's precision, project to
width `2*dim`, split into `(scale, shift)` halves, and return
`norm(x) * (1 + scale) + shift` with scale and shift broadcast over the
sequence axis — the reference (unfused) computation, which never fails. -/
def specContinuousReference (sq si ca : ℚ → ℚ) (st : AdaLayerNormContinuous)
    (x : T3) (c : Mat) : T3 :=
  let e := linearMO st.W st.lb (mapM2 ca (mapM2 si c))
  let scale := e.map (fun r => r.take (r.length / 2))
  let shift := e.map (fun r => r.drop (r.length / 2))
  modRows (specNormApply sq st.norm x) scale shift

/-! ## Helper lemmas about the broadcasting machinery -/

lemma seqO_map {α γ : Type} {g : α → Option γ} {h2 : α → γ} :
    ∀ (l : List α), (∀ x ∈ l, g x = some (h2 x)) →
      seqO (l.map g) = some (l.map h2)
  | [], _ => rfl
  | x :: xs, H => by
    have hx := H x (by simp)
    have hxs := seqO_map xs (fun y hy => H y (by simp [hy]))
    simp [seqO, hx, hxs]

lemma seqO_zipWith {α β γ : Type} {g : α → β → Option γ} {h2 : α → β → γ} :
    ∀ (a : List α) (b : List β),
      (∀ x ∈ a, ∀ y ∈ b, g x y = some (h2 x y)) →
      seqO (List.zipWith g a b) = some (List.zipWith h2 a b)
  | [], _, _ => rfl
  | _ :: _, [], _ => rfl
  | x :: xs, y :: ys, H => by
    have hx := H x (by simp) y (by simp)
    have hxs := seqO_zipWith xs ys (fun u hu v hv => H u (by simp [hu]) v (by simp [hv]))
    simp [seqO, hx, hxs]

lemma bcZip_eq_len {α β γ : Type} (g : α → β → Option γ) (a : List α)
    (b : List β) (h : a.length = b.length) :
    bcZip g a b = seqO (List.zipWith g a b) := by
  simp [bcZip, h]

lemma bc1_eq (f : ℚ → ℚ → ℚ) (a b : Vec) (h : a.length = b.length) :
    bc1 f a b = some (List.zipWith f a b) := by
  rw [bc1, bcZip_eq_len _ _ _ h]
  exact seqO_zipWith a b (fun _ _ _ _ => rfl)

lemma bc2_single (f : ℚ → ℚ → ℚ) (m : Mat) (r : Vec)
    (h : ∀ row ∈ m, row.length = r.length) :
    bc2 f m [r] = some (m.map (fun row => List.zipWith f row r)) := by
  by_cases h1 : m.length = 1
  · obtain ⟨row, rfl⟩ : ∃ row, m = [row] := by
      cases m with
      | nil => simp at h1
      | cons a t => cases t with
        | nil => exact ⟨a, rfl⟩
        | cons b t' => simp at h1
    rw [bc2, bcZip_eq_len _ _ _ (by simp [h1])]
    simp [seqO, bc1_eq f row r (h row (by simp))]
  · have hne : ¬ m.length = [r].length := by simpa using h1
    have hstep : bc2 f m [r] = seqO (m.map (fun x => bc1 f x r)) := by
      simp [bc2, bcZip, hne, h1]
    rw [hstep]
    exact seqO_map m (fun row hrow => bc1_eq f row r (h row hrow))

lemma mem_of_mem_zipWith {α β γ : Type} {g : α → β → γ} :
    ∀ {as : List α} {bs : List β} {c : γ}, c ∈ List.zipWith g as bs →
      ∃ a, a ∈ as ∧ ∃ b, b ∈ bs ∧ c = g a b := by
  intro as
  induction as with
  | nil => intro bs c hc; simp at hc
  | cons a as ih =>
    intro bs c hc
    cases bs with
    | nil => simp at hc
    | cons b bs =>
      rcases (by simpa using hc : c = g a b ∨ c ∈ List.zipWith g as bs) with h | h
      · exact ⟨a, by simp, b, by simp, h⟩
      · obtain ⟨a', ha', b', hb', rfl⟩ := ih h
        exact ⟨a', by simp [ha'], b', by simp [hb'], rfl⟩

lemma bc3_unsq (f : ℚ → ℚ → ℚ) (X : T3) (M : Mat) (d : ℕ)
    (hlen : X.length = M.length)
    (hX : ∀ m ∈ X, ∀ row ∈ m, row.length = d)
    (hM : ∀ r ∈ M, r.length = d) :
    bc3 f X (unsq1 M) =
      some (List.zipWith (fun m r => m.map (fun row => List.zipWith f row r)) X M) := by
  rw [bc3, unsq1, bcZip_eq_len _ _ _ (by simpa using hlen)]
  rw [List.zipWith_map_right]
  exact seqO_zipWith X M (fun m hm r hr =>
    bc2_single f m r (fun row hrow => by rw [hX m hm row hrow, hM r hr]))

lemma zz_modRows :
    ∀ (X : T3) (scale shift : Mat),
      List.zipWith (fun m r => m.map (fun row => List.zipWith (fun p q => p + q) row r))
        (List.zipWith (fun m r => m.map (fun row => List.zipWith (fun p q => p * q) row r))
          X (onePlus scale))
        shift = modRows X scale shift
  | [], sc, sh => by cases sc <;> cases sh <;> simp [modRows, onePlus, mapM2]
  | _ :: _, [], sh => by cases sh <;> simp [modRows, onePlus, mapM2]
  | _ :: _, _ :: _, [] => by simp [modRows, onePlus, mapM2]
  | m :: X, r1 :: scale, r2 :: shift => by
    have ih := zz_modRows X scale shift
    simp only [modRows, onePlus, mapM2, List.map_cons, List.zipWith_cons_cons,
      List.zip_cons_cons, List.map_map] at ih ⊢
    congr 1
    all_goals first
      | exact ih
      | (apply List.map_congr_left
         intro row _
         simp [List.zipWith_map_right])

lemma bc_mod (X : T3) (scale shift : Mat) (d : ℕ)
    (h1 : X.length = scale.length) (h2 : X.length = shift.length)
    (hX : ∀ m ∈ X, ∀ row ∈ m, row.length = d)
    (hsc : ∀ r ∈ scale, r.length = d) (hsh : ∀ r ∈ shift, r.length = d) :
    (bc3 (fun p q => p * q) X (unsq1 (onePlus scale))).bind
      (fun y => bc3 (fun p q => p + q) y (unsq1 shift)) =
    some (modRows X scale shift) := by
  have hsc1 : ∀ r ∈ onePlus scale, r.length = d := by
    intro r hr
    obtain ⟨r0, hr0, rfl⟩ := List.mem_map.1 hr
    simpa using hsc r0 hr0
  rw [bc3_unsq (fun p q => p * q) X (onePlus scale) d (by simpa [onePlus, mapM2] using h1) hX hsc1]
  have hYlen : (List.zipWith (fun m r => m.map (fun row => List.zipWith (fun p q => p * q) row r))
      X (onePlus scale)).length = shift.length := by
    simp [List.length_zipWith, onePlus, mapM2, ← h1, ← h2]
  have hYrows : ∀ m ∈ List.zipWith (fun m r => m.map (fun row => List.zipWith (fun p q => p * q) row r))
      X (onePlus scale), ∀ row ∈ m, row.length = d := by
    intro m hm row hrow
    obtain ⟨m0, hm0, r0, hr0, rfl⟩ := mem_of_mem_zipWith hm
    obtain ⟨row0, hrow0, rfl⟩ := List.mem_map.1 hrow
    simp [List.length_zipWith, hX m0 hm0 row0 hrow0, hsc1 r0 hr0]
  show (bc3 (fun p q => p + q) _ (unsq1 shift)) = _
  rw [bc3_unsq (fun p q => p + q) _ shift d hYlen hYrows hsh]
  exact congrArg some (zz_modRows X scale shift)

lemma chunkVec_eq (k d : ℕ) (hk : k ≠ 0) (r : Vec) (hr : r.length = k * d) :
    chunkVec k r = some ((List.range k).map (fun j => (r.drop (j * d)).take d)) := by
  have hdiv : r.length / k = d := by
    rw [hr]
    exact Nat.mul_div_cancel_left d (Nat.pos_of_ne_zero hk)
  have hmod : r.length % k = 0 := by
    rw [hr]
    exact Nat.mul_mod_right k d
  simp [chunkVec, hk, hmod, hdiv]

lemma chunkCols_eq (k d : ℕ) (hk : k ≠ 0) (m : Mat)
    (hrows : ∀ r ∈ m, r.length = k * d) :
    chunkCols k m = some ((List.range k).map (fun j => specSlice (j * d) d m)) := by
  rw [chunkCols, seqO_map m (fun r hr => chunkVec_eq k d hk r (hrows r hr))]
  refine congrArg some ?_
  apply List.map_congr_left
  intro j hj
  have hj' : j < k := List.mem_range.mp hj
  simp [specSlice, List.map_map, List.getD_eq_getElem?_getD, List.getElem?_map,
    List.getElem?_range hj']

/-! ## Claim theorems -/

/-- C1: the claim says `RMSNorm.forward` returns
`x / sqrt(mean(x^2, axis=dim) + eps) * scale` (unscaled when the scale is
absent).  The code computes exactly that value through the fused kernel —
the second conjunct — but its body has no `return` statement, so the
forward call itself always returns `None` (first conjunct): the claim
describes the evident intent and the code drops the result. -/
theorem claim_C1_rmsnorm_forward (sq : ℚ → ℚ) (st : RMSNorm) (x : T3) :
    RMSNorm.forward sq st x = none ∧
    fusedRmsNorm sq x st.weight st.epsilon = specRmsNorm sq st x := by
  refine ⟨rfl, ?_⟩
  unfold fusedRmsNorm specRmsNorm
  cases st.weight <;> rfl

/-- C7: the claim says every normalizer constructor rejects epsilon ≤ 0
with a configuration error.  Counterexample: `RMSNorm(4, -1)` and an
`AdaGroupNorm` with `eps = -1` both construct successfully, storing the
non-positive epsilon unchanged. -/
theorem claim_C7_counterexample :
    ((-1 : ℚ) ≤ 0) ∧
    (RMSNorm.init 4 (-1) true).epsilon = -1 ∧
    (AdaGroupNorm.init 4 (-1) none [] []).eps = -1 := by
  refine ⟨by norm_num, rfl, rfl⟩

/-- C7 (amended): construction never validates epsilon — `RMSNorm.__init__`
and `AdaGroupNorm.__init__` accept any epsilon, including non-positive
values, and store it unchanged; no configuration error is raised. -/
theorem claim_C7_eps_never_validated (d ng : ℕ) (eps : ℚ) (aff : Bool)
    (act : Option (ℚ → ℚ)) (W : Mat) (b : Vec) (_heps : eps ≤ 0) :
    (RMSNorm.init d eps aff).epsilon = eps ∧
    (AdaGroupNorm.init ng eps act W b).eps = eps :=
  ⟨rfl, rfl⟩

/-- Witness for the amended C7 at the concrete non-positive epsilon `-2`. -/
theorem claim_C7_eps_never_validated_witness :
    (RMSNorm.init 8 (-2) false).epsilon = -2 ∧
    (AdaGroupNorm.init 2 (-2) none [] []).eps = -2 :=
  claim_C7_eps_never_validated 8 2 (-2) false none [] [] (by norm_num)

/-- C6: constructing `AdaLayerNormContinuous` with any `norm_type` other
than `"layer_norm"` and `"rms_norm"` raises `ValueError` in the
constructor itself, never deferred to a forward call. -/
theorem claim_C6_unknown_norm_type (embeddingDim : ℕ) (aff : Bool) (eps : ℚ)
    (bias : Bool) (normType : String) (W : Mat) (lb : Option Vec)
    (h1 : normType ≠ "layer_norm") (h2 : normType ≠ "rms_norm") :
    AdaLayerNormContinuous.init embeddingDim aff eps bias normType W lb = none := by
  simp [AdaLayerNormContinuous.init, h1, h2]

/-- Witness for C6 at the concrete configuration string `"unknown"`. -/
theorem claim_C6_unknown_norm_type_witness :
    ("unknown" ≠ "layer_norm") ∧ ("unknown" ≠ "rms_norm") ∧
    AdaLayerNormContinuous.init 8 true (1/100000) true "unknown" [] none = none :=
  ⟨by decide, by decide,
    claim_C6_unknown_norm_type 8 true (1/100000) true "unknown" [] none
      (by decide) (by decide)⟩

/-- C8: when `AdaLayerNormZero` owns no internal embedder
(`num_embeddings=None`) and `forward` is called with `emb=None`, the call
fails explicitly — `self.silu(None)` raises a `TypeError` (modelled as
`none`) — rather than silently wrapping around or propagating NaNs. -/
theorem claim_C8_missing_emb_fails (sq si : ℚ → ℚ) (st : AdaLayerNormZero)
    (x : T3) (ts cls : List ℕ) (h : st.emb = none) :
    AdaLayerNormZero.forward sq si st x ts cls none = none := by
  unfold AdaLayerNormZero.forward effEmb
  rw [h]

/-- Witness for C8 at a concrete embedder-less state and concrete inputs. -/
theorem claim_C8_missing_emb_fails_witness :
    (AdaLayerNormZero.mk none [] []).emb = none ∧
    AdaLayerNormZero.forward id id (AdaLayerNormZero.mk none [] [])
      [[[1, 2]]] [0] [0] none = none :=
  ⟨rfl, claim_C8_missing_emb_fails id id (AdaLayerNormZero.mk none [] [])
    [[[1, 2]]] [0] [0] rfl⟩

/-- C10: with `norm_type="rms_norm"` and the `INFERENCE_OPTIMIZE_TRITON`
switch set, every forward call fails: the fused path reads
`self.norm.bias`, and `RMSNorm` defines no `bias` attribute (it only
conditionally defines `weight`), so the read raises `AttributeError`.
A `LayerNorm`-normed instance always has the `bias` attribute, so the
fused path is usable only with `norm_type="layer_norm"`. -/
theorem claim_C10_fused_rms_fails (sq si ca : ℚ → ℚ)
    (fop : T3 → Mat → Mat → Option Vec → Option Vec → T3)
    (rst : RMSNorm) (W : Mat) (lb : Option Vec) (x : T3) (c : Mat) :
    AdaLayerNormContinuous.forward sq si ca fop true
      { W := W, lb := lb, norm := NormChoice.rms rst } x c = none ∧
    normBiasAttr (NormChoice.rms rst) = none ∧
    (∀ eps w b, normBiasAttr (NormChoice.layerNorm eps w b) = some b) := by
  refine ⟨?_, rfl, fun _ _ _ => rfl⟩
  show (chunkCols 2 _).bind _ = none
  cases h : chunkCols 2 (linearMO W lb (mapM2 ca (mapM2 si c))) with
  | none => rfl
  | some parts =>
    rcases parts with _ | ⟨s1, rest⟩
    · rfl
    rcases rest with _ | ⟨s2, rest2⟩
    · rfl
    rcases rest2 with _ | ⟨s3, rest3⟩
    · rfl
    · rfl

/-- C9: `AdaLayerNormSingle.forward` returns the pair
`(projected modulation of width 6*embedding_dim, raw embedded timestep)`
with no split and no normalization applied, and its embedder is
configured at construction with `size_emb_dim = embedding_dim // 3`. -/
theorem claim_C9_single_no_split (si : ℚ → ℚ) (embeddingDim : ℕ)
    (useAdd : Bool) (factory : ℕ → Bool → (List ℕ → Mat)) (W : Mat) (b : Vec)
    (ts : List ℕ) (hW : W.length = 6 * embeddingDim)
    (hb : b.length = 6 * embeddingDim) :
    (AdaLayerNormSingle.init embeddingDim useAdd factory W b).sizeEmbDim
        = embeddingDim / 3 ∧
    ((AdaLayerNormSingle.init embeddingDim useAdd factory W b).forward si ts).2
        = factory (embeddingDim / 3) useAdd ts ∧
    ((AdaLayerNormSingle.init embeddingDim useAdd factory W b).forward si ts).1
        = linearM W b (mapM2 si (factory (embeddingDim / 3) useAdd ts)) ∧
    ∀ r ∈ ((AdaLayerNormSingle.init embeddingDim useAdd factory W b).forward si ts).1,
      r.length = 6 * embeddingDim := by
  refine ⟨rfl, rfl, rfl, ?_⟩
  intro r hr
  obtain ⟨v, hv, rfl⟩ := List.mem_map.1 hr
  simp [linearV, List.length_zipWith, AdaLayerNormSingle.init, hW, hb]

/-- Concrete projection weight for the C9 witness. -/
def c9W : Mat := List.replicate 18 [(1 : ℚ)]

/-- Concrete projection bias for the C9 witness. -/
def c9b : Vec := List.replicate 18 (0 : ℚ)

/-- Concrete boundary-embedder factory for the C9 witness. -/
def c9F : ℕ → Bool → (List ℕ → Mat) := fun _ _ _ => [[1, 2, 3]]

/-- Witness for C9 at `embedding_dim = 3`, one timestep. -/
theorem claim_C9_single_no_split_witness :
    c9W.length = 6 * 3 ∧ c9b.length = 6 * 3 ∧
    ((AdaLayerNormSingle.init 3 false c9F c9W c9b).sizeEmbDim = 3 / 3 ∧
     ((AdaLayerNormSingle.init 3 false c9F c9W c9b).forward id [7]).2
        = c9F (3 / 3) false [7] ∧
     ((AdaLayerNormSingle.init 3 false c9F c9W c9b).forward id [7]).1
        = linearM c9W c9b (mapM2 id (c9F (3 / 3) false [7])) ∧
     ∀ r ∈ ((AdaLayerNormSingle.init 3 false c9F c9W c9b).forward id [7]).1,
       r.length = 6 * 3) :=
  ⟨by decide, by decide,
    claim_C9_single_no_split id 3 false c9F c9W c9b [7] (by decide) (by decide)⟩

/-- Embedding table of the spec's concrete scenario for `AdaLayerNorm`:
`num_embeddings=1000`, `embedding_dim=8`, all-zero entries. -/
def c2Table : List (List ℚ) := List.replicate 1000 (List.replicate 8 (0 : ℚ))

/-- All-zero projection weight of the concrete scenario (width `2*8`). -/
def c2W : Mat := List.replicate 16 (List.replicate 8 (0 : ℚ))

/-- All-zero projection bias of the concrete scenario. -/
def c2b : Vec := List.replicate 16 (0 : ℚ)

/-- Activation tensor of shape `[2, 4, 8]` for the concrete scenario. -/
def c2X : T3 := List.replicate 2 (List.replicate 4 (List.replicate 8 (0 : ℚ)))

/-- C2: the spec's concrete scenario — `batch=2, seq=4, dim=8`,
`num_embeddings=1000`, `timestep=[5, 999]`, all projection weights and
bias zero — must, per the claim, return the zero-affine layer-normalized
`x`.  Instead `paddle.chunk(emb, 2)` splits along the default axis 0 (the
batch axis), so `scale` and `shift` have shape `[1, 16]`, which cannot
broadcast against the `[2, 4, 8]` normalized activation: the forward call
raises a shape error (modelled as `none`) for every host square root and
SiLU. -/
theorem claim_C2_adalayernorm_scenario_fails (sq si : ℚ → ℚ) :
    AdaLayerNorm.forward sq si
      { table := c2Table, W := c2W, b := c2b } c2X [5, 999] = none := by
  have h5 : c2Table[(5 : ℕ)]? = some (List.replicate 8 (0 : ℚ)) := by
    rw [c2Table]
    exact List.getElem?_replicate_of_lt (by norm_num)
  have h999 : c2Table[(999 : ℕ)]? = some (List.replicate 8 (0 : ℚ)) := by
    rw [c2Table]
    exact List.getElem?_replicate_of_lt (by norm_num)
  have hlookup : embLookup c2Table [5, 999] =
      some [List.replicate 8 (0 : ℚ), List.replicate 8 (0 : ℚ)] := by
    show seqO [c2Table.get? 5, c2Table.get? 999] = _
    rw [List.get?_eq_getElem?, List.get?_eq_getElem?, h5, h999]
    rfl
  show (embLookup c2Table [5, 999]).bind _ = none
  rw [hlookup]
  with_unfolding_all rfl

/-- C3: `AdaLayerNormZero.forward` projects the (supplied or internally
computed) embedding after SiLU to width `6*dim`, splits it into six equal
chunks along axis 1 in the fixed order
`shift_msa, scale_msa, gate_msa, shift_mlp, scale_mlp, gate_mlp`,
normalizes `x` with epsilon `1e-6` and no learned affine, and returns
`(norm(x) * (1 + scale_msa) + shift_msa, gate_msa, shift_mlp, scale_mlp,
gate_mlp)` with the scale/shift broadcast over the sequence axis. -/
theorem claim_C3_adazero_forward (sq si : ℚ → ℚ)
    (embOpt : Option (List ℕ → List ℕ → Mat)) (W : Mat) (b : Vec) (x : T3)
    (ts cls : List ℕ) (embArg : Option Mat) (e : Mat) (d : ℕ)
    (heff : effEmb { emb := embOpt, W := W, b := b } ts cls embArg = some e)
    (hW : W.length = 6 * d) (hb : b.length = 6 * d)
    (hbatch : x.length = e.length)
    (hx : ∀ m ∈ x, ∀ row ∈ m, row.length = d) :
    AdaLayerNormZero.forward sq si { emb := embOpt, W := W, b := b }
        x ts cls embArg =
      some (specModulate sq ((1 : ℚ)/1000000) x
              (specSlice d d (linearM W b (mapM2 si e)))
              (specSlice 0 d (linearM W b (mapM2 si e))),
            specSlice (2 * d) d (linearM W b (mapM2 si e)),
            specSlice (3 * d) d (linearM W b (mapM2 si e)),
            specSlice (4 * d) d (linearM W b (mapM2 si e)),
            specSlice (5 * d) d (linearM W b (mapM2 si e))) := by
  have he6rows : ∀ r ∈ linearM W b (mapM2 si e), r.length = 6 * d := by
    intro r hr
    obtain ⟨v, hv, rfl⟩ := List.mem_map.1 hr
    simp [linearV, List.length_zipWith, hW, hb]
  have he6len : (linearM W b (mapM2 si e)).length = e.length := by
    simp [linearM, mapM2]
  have hchunk := chunkCols_eq 6 d (by norm_num) (linearM W b (mapM2 si e)) he6rows
  have hrange : (List.range 6).map
        (fun j => specSlice (j * d) d (linearM W b (mapM2 si e))) =
      [specSlice 0 d (linearM W b (mapM2 si e)),
       specSlice d d (linearM W b (mapM2 si e)),
       specSlice (2 * d) d (linearM W b (mapM2 si e)),
       specSlice (3 * d) d (linearM W b (mapM2 si e)),
       specSlice (4 * d) d (linearM W b (mapM2 si e)),
       specSlice (5 * d) d (linearM W b (mapM2 si e))] := by
    have h6 : List.range 6 = [0, 1, 2, 3, 4, 5] := rfl
    rw [h6]
    simp
  rw [hrange] at hchunk
  have hslicelen : ∀ (lo : ℕ),
      ∀ r ∈ specSlice lo d (linearM W b (mapM2 si e)), lo + d ≤ 6 * d →
        r.length = d := by
    intro lo r hr hle
    obtain ⟨r0, hr0, rfl⟩ := List.mem_map.1 hr
    have := he6rows r0 hr0
    simp only [List.length_take, List.length_drop, this]
    omega
  have hXrows : ∀ m ∈ lnT3 sq ((1 : ℚ)/1000000) x, ∀ row ∈ m, row.length = d := by
    intro m hm row hrow
    obtain ⟨m0, hm0, rfl⟩ := List.mem_map.1 hm
    obtain ⟨row0, hrow0, rfl⟩ := List.mem_map.1 hrow
    simp [lnVec, hx m0 hm0 row0 hrow0]
  have hscrows : ∀ r ∈ onePlus (specSlice d d (linearM W b (mapM2 si e))),
      r.length = d := by
    intro r hr
    obtain ⟨r0, hr0, rfl⟩ := List.mem_map.1 hr
    have := hslicelen d r0 hr0 (by omega)
    simpa using this
  have hshrows : ∀ r ∈ specSlice 0 d (linearM W b (mapM2 si e)),
      r.length = d := by
    intro r hr
    exact hslicelen 0 r hr (by omega)
  have hm1 := bc3_unsq (fun p q => p * q) (lnT3 sq ((1 : ℚ)/1000000) x)
    (onePlus (specSlice d d (linearM W b (mapM2 si e)))) d
    (by simp [lnT3, onePlus, mapM2, specSlice, linearM, hbatch])
    hXrows hscrows
  have hYrows : ∀ m ∈ List.zipWith
        (fun m r => m.map (fun row => List.zipWith (fun p q => p * q) row r))
        (lnT3 sq ((1 : ℚ)/1000000) x)
        (onePlus (specSlice d d (linearM W b (mapM2 si e)))),
      ∀ row ∈ m, row.length = d := by
    intro m hm row hrow
    obtain ⟨m0, hm0, r0, hr0, rfl⟩ := mem_of_mem_zipWith hm
    obtain ⟨row0, hrow0, rfl⟩ := List.mem_map.1 hrow
    simp [List.length_zipWith, hXrows m0 hm0 row0 hrow0, hscrows r0 hr0]
  have hm2 := bc3_unsq (fun p q => p + q)
    (List.zipWith
      (fun m r => m.map (fun row => List.zipWith (fun p q => p * q) row r))
      (lnT3 sq ((1 : ℚ)/1000000) x)
      (onePlus (specSlice d d (linearM W b (mapM2 si e)))))
    (specSlice 0 d (linearM W b (mapM2 si e))) d
    (by simp [List.length_zipWith, lnT3, onePlus, mapM2, specSlice, linearM, hbatch])
    hYrows hshrows
  show (match effEmb { emb := embOpt, W := W, b := b } ts cls embArg with
    | none => none
    | some e' =>
      (chunkCols 6 (linearM W b (mapM2 si e'))).bind (fun parts =>
      match parts with
      | [shiftMsa, scaleMsa, gateMsa, shiftMlp, scaleMlp, gateMlp] =>
        (bc3 (fun p q => p * q) (lnT3 sq ((1 : ℚ)/1000000) x)
            (unsq1 (onePlus scaleMsa))).bind (fun y =>
        (bc3 (fun p q => p + q) y (unsq1 shiftMsa)).map (fun x1 =>
        (x1, gateMsa, shiftMlp, scaleMlp, gateMlp)))
      | _ => none)) = _
  rw [heff]
  show (chunkCols 6 (linearM W b (mapM2 si e))).bind _ = _
  rw [hchunk, Option.some_bind]
  show (bc3 (fun p q => p * q) (lnT3 sq ((1 : ℚ)/1000000) x)
      (unsq1 (onePlus (specSlice d d (linearM W b (mapM2 si e)))))).bind _ = _
  rw [hm1, Option.some_bind, hm2, Option.map_some']
  refine congrArg some ?_
  refine congrArg (fun t => (t, _, _, _, _)) ?_
  rw [specModulate, ← zz_modRows]

/-- Concrete projection weight for the C3 witness (`dim = 1`). -/
def c3W : Mat := List.replicate 6 [(1 : ℚ)]

/-- Concrete projection bias for the C3 witness. -/
def c3b : Vec := List.replicate 6 (0 : ℚ)

/-- Concrete supplied embedding for the C3 witness. -/
def c3e : Mat := [[2]]

/-- Concrete activation for the C3 witness. -/
def c3x : T3 := [[[3]]]

/-- Witness for C3 at `dim = 1`, batch 1, a supplied embedding. -/
theorem claim_C3_adazero_forward_witness :
    (effEmb { emb := none, W := c3W, b := c3b } [] [] (some c3e) = some c3e) ∧
    (c3W.length = 6 * 1) ∧ (c3b.length = 6 * 1) ∧
    (c3x.length = c3e.length) ∧ (∀ m ∈ c3x, ∀ row ∈ m, row.length = 1) ∧
    AdaLayerNormZero.forward id id { emb := none, W := c3W, b := c3b }
        c3x [] [] (some c3e) =
      some (specModulate id ((1 : ℚ)/1000000) c3x
              (specSlice 1 1 (linearM c3W c3b (mapM2 id c3e)))
              (specSlice 0 1 (linearM c3W c3b (mapM2 id c3e))),
            specSlice (2 * 1) 1 (linearM c3W c3b (mapM2 id c3e)),
            specSlice (3 * 1) 1 (linearM c3W c3b (mapM2 id c3e)),
            specSlice (4 * 1) 1 (linearM c3W c3b (mapM2 id c3e)),
            specSlice (5 * 1) 1 (linearM c3W c3b (mapM2 id c3e))) :=
  ⟨rfl, by decide, by decide, by decide, by decide,
   claim_C3_adazero_forward id id none c3W c3b c3x [] [] (some c3e) c3e 1
     rfl (by decide) (by decide) (by decide) (by decide)⟩

/-- C4: with the environment switch absent (`flag = false`),
`AdaLayerNormContinuous.forward` takes the reference (unfused) path.
First conjunct: for a `layer_norm`-normed instance the result is exactly
the spec's reference computation — SiLU, cast to the activation's
precision, linear projection, `(scale, shift)` split, then
`norm(x) * (1 + scale) + shift` broadcast over the sequence axis.
Second conjunct: for an `rms_norm`-normed instance the same fallback path
always fails (`none`), because `self.norm(x)` is `RMSNorm.forward`, whose
missing `return` yields `None` — the claim's universal statement breaks
on every such instance, with the C1 slip as the root cause. -/
theorem claim_C4_continuous_fallback (sq si ca : ℚ → ℚ)
    (fop : T3 → Mat → Mat → Option Vec → Option Vec → T3) :
    (∀ (W : Mat) (lb : Option Vec) (eps : ℚ) (w bb : Option Vec)
       (x : T3) (c : Mat) (d : ℕ),
      (∀ r ∈ linearMO W lb (mapM2 ca (mapM2 si c)), r.length = 2 * d) →
      x.length = (linearMO W lb (mapM2 ca (mapM2 si c))).length →
      (∀ m ∈ x, ∀ row ∈ m, row.length = d) →
      (∀ wv, w = some wv → wv.length = d) →
      (∀ bv, bb = some bv → bv.length = d) →
      AdaLayerNormContinuous.forward sq si ca fop false
          { W := W, lb := lb, norm := NormChoice.layerNorm eps w bb } x c =
        some (specContinuousReference sq si ca
          { W := W, lb := lb, norm := NormChoice.layerNorm eps w bb } x c)) ∧
    (∀ (W : Mat) (lb : Option Vec) (rst : RMSNorm) (x : T3) (c : Mat),
      AdaLayerNormContinuous.forward sq si ca fop false
          { W := W, lb := lb, norm := NormChoice.rms rst } x c = none) := by
  constructor
  · intro W lb eps w bb x c d he hlen hx hw hbb
    have hchunk := chunkCols_eq 2 d (by norm_num)
      (linearMO W lb (mapM2 ca (mapM2 si c))) he
    have hrange : (List.range 2).map
          (fun j => specSlice (j * d) d (linearMO W lb (mapM2 ca (mapM2 si c)))) =
        [specSlice 0 d (linearMO W lb (mapM2 ca (mapM2 si c))),
         specSlice d d (linearMO W lb (mapM2 ca (mapM2 si c)))] := by
      have h2 : List.range 2 = [0, 1] := rfl
      rw [h2]
      simp
    rw [hrange] at hchunk
    have hslice0 : ∀ r ∈ specSlice 0 d (linearMO W lb (mapM2 ca (mapM2 si c))),
        r.length = d := by
      intro r hr
      obtain ⟨r0, hr0, rfl⟩ := List.mem_map.1 hr
      have := he r0 hr0
      simp only [List.length_take, List.length_drop, this]
      omega
    have hsliced : ∀ r ∈ specSlice d d (linearMO W lb (mapM2 ca (mapM2 si c))),
        r.length = d := by
      intro r hr
      obtain ⟨r0, hr0, rfl⟩ := List.mem_map.1 hr
      have := he r0 hr0
      simp only [List.length_take, List.length_drop, this]
      omega
    have hnx : ∀ m ∈ specNormApply sq (NormChoice.layerNorm eps w bb) x,
        ∀ row ∈ m, row.length = d := by
      intro m hm row hrow
      obtain ⟨m0, hm0, rfl⟩ := List.mem_map.1 hm
      obtain ⟨row0, hrow0, rfl⟩ := List.mem_map.1 hrow
      have h0 : (lnVec sq eps row0).length = row0.length := by simp [lnVec]
      cases hww : w with
      | none =>
        cases hbbb : bb with
        | none => simp [hww, hbbb, h0, hx m0 hm0 row0 hrow0]
        | some bv =>
          simp [hww, hbbb, List.length_zipWith, h0, hx m0 hm0 row0 hrow0,
            hbb bv hbbb]
      | some wv =>
        cases hbbb : bb with
        | none =>
          simp [hww, hbbb, List.length_zipWith, h0, hx m0 hm0 row0 hrow0,
            hw wv hww]
        | some bv =>
          simp [hww, hbbb, List.length_zipWith, h0, hx m0 hm0 row0 hrow0,
            hw wv hww, hbb bv hbbb]
    have hmod := bc_mod (specNormApply sq (NormChoice.layerNorm eps w bb) x)
      (specSlice 0 d (linearMO W lb (mapM2 ca (mapM2 si c))))
      (specSlice d d (linearMO W lb (mapM2 ca (mapM2 si c)))) d
      (by simp [specNormApply, specSlice, hlen])
      (by simp [specNormApply, specSlice, hlen])
      hnx hslice0 hsliced
    have hsc : (linearMO W lb (mapM2 ca (mapM2 si c))).map
          (fun r => r.take (r.length / 2)) =
        specSlice 0 d (linearMO W lb (mapM2 ca (mapM2 si c))) := by
      rw [specSlice]
      apply List.map_congr_left
      intro r hr
      have h2d := he r hr
      rw [h2d, Nat.mul_div_cancel_left d (by norm_num : 0 < 2), List.drop_zero]
    have hsh : (linearMO W lb (mapM2 ca (mapM2 si c))).map
          (fun r => r.drop (r.length / 2)) =
        specSlice d d (linearMO W lb (mapM2 ca (mapM2 si c))) := by
      rw [specSlice]
      apply List.map_congr_left
      intro r hr
      have h2d := he r hr
      rw [h2d, Nat.mul_div_cancel_left d (by norm_num : 0 < 2),
        List.take_of_length_le (by simp only [List.length_drop, h2d]; omega)]
    show (chunkCols 2 (linearMO W lb (mapM2 ca (mapM2 si c)))).bind _ = _
    rw [hchunk, Option.some_bind]
    show (bc3 (fun p q => p * q)
        (specNormApply sq (NormChoice.layerNorm eps w bb) x)
        (unsq1 (onePlus
          (specSlice 0 d (linearMO W lb (mapM2 ca (mapM2 si c))))))).bind
      (fun y => bc3 (fun p q => p + q) y
        (unsq1 (specSlice d d (linearMO W lb (mapM2 ca (mapM2 si c)))))) = _
    rw [hmod]
    refine congrArg some ?_
    show modRows (specNormApply sq (NormChoice.layerNorm eps w bb) x)
        (specSlice 0 d (linearMO W lb (mapM2 ca (mapM2 si c))))
        (specSlice d d (linearMO W lb (mapM2 ca (mapM2 si c)))) =
      modRows (specNormApply sq (NormChoice.layerNorm eps w bb) x)
        ((linearMO W lb (mapM2 ca (mapM2 si c))).map
          (fun r => r.take (r.length / 2)))
        ((linearMO W lb (mapM2 ca (mapM2 si c))).map
          (fun r => r.drop (r.length / 2)))
    rw [hsc, hsh]
  · intro W lb rst x c
    show (chunkCols 2 (linearMO W lb (mapM2 ca (mapM2 si c)))).bind _ = none
    cases h : chunkCols 2 (linearMO W lb (mapM2 ca (mapM2 si c))) with
    | none => rfl
    | some parts =>
      rcases parts with _ | ⟨s1, rest⟩
      · rfl
      rcases rest with _ | ⟨s2, rest2⟩
      · rfl
      rcases rest2 with _ | ⟨s3, rest3⟩
      · rfl
      · rfl

/-- Concrete projection weight for the C4 witness (`dim = 1`). -/
def c4W : Mat := [[1], [1]]

/-- Concrete activation for the C4 witness. -/
def c4x : T3 := [[[1]]]

/-- Concrete conditioning embedding for the C4 witness. -/
def c4c : Mat := [[1]]

/-- Concrete stand-in for the external fused kernel in the C4 witness. -/
def c4fop : T3 → Mat → Mat → Option Vec → Option Vec → T3 :=
  fun x _ _ _ _ => x

/-- Concrete `RMSNorm` state for the C4 witness failing input. -/
def c4rms : RMSNorm := RMSNorm.init 1 (1/100000) true

/-- Witness for C4: a concrete `layer_norm` instance where the fallback
equals the reference computation, and the concrete `rms_norm` failing
input where the fallback call yields `none`. -/
theorem claim_C4_continuous_fallback_witness :
    (∀ r ∈ linearMO c4W none (mapM2 id (mapM2 id c4c)), r.length = 2 * 1) ∧
    (c4x.length = (linearMO c4W none (mapM2 id (mapM2 id c4c))).length) ∧
    (∀ m ∈ c4x, ∀ row ∈ m, row.length = 1) ∧
    (AdaLayerNormContinuous.forward id id id c4fop false
        { W := c4W, lb := none,
          norm := NormChoice.layerNorm (1/100000) none none } c4x c4c =
      some (specContinuousReference id id id
        { W := c4W, lb := none,
          norm := NormChoice.layerNorm (1/100000) none none } c4x c4c)) ∧
    (AdaLayerNormContinuous.forward id id id c4fop false
        { W := c4W, lb := none, norm := NormChoice.rms c4rms } c4x c4c = none) :=
  ⟨by decide, by decide, by decide,
   (claim_C4_continuous_fallback id id id c4fop).1 c4W none (1/100000) none none
     c4x c4c 1 (by decide) (by decide) (by decide)
     (fun wv h => nomatch h) (fun bv h => nomatch h),
   (claim_C4_continuous_fallback id id id c4fop).2 c4W none c4rms c4x c4c⟩
